import Mathlib

/-!
Verification of the waveform-composition module (`sound_generation.py`).

The `Sound` class is shallowly embedded over an arbitrary linearly ordered
field `α` with a floor function (instantiated at `ℚ` for concrete
evaluation and at `ℝ` for the claims that need genuine logarithms and
real powers).  Transcendental primitives (`sin`, `π`, `log10`, `10^·`)
are supplied through a context record `SigCtx`, and the process-wide
random source is passed in as an explicit sequence of draws, so every
state-transforming operation is a pure function.  Python/numpy failure
modes (`ZeroDivisionError`, `ValueError` from `np.linspace` with a
negative count or from an in-place broadcast mismatch) are modelled with
`Except`.
-/

/-- Errors that the Python code can actually raise on the modelled paths. -/
inductive PyErr : Type
  | zeroDivisionError : PyErr
  | valueError : PyErr
deriving DecidableEq, Repr

/-- The transcendental primitives used by `sound_generation.py`:
`np.sin`, `np.pi`, `np.log10` and the base-10 power applied by
`np.logspace`.  They are abstract here; claims about their analytic
behaviour are stated at the instantiation `α = ℝ`. -/
structure SigCtx (α : Type) where
  sin : α → α
  pi : α
  log10 : α → α
  exp10 : α → α

/-- One entry of `Sound.components`: the tagged record appended by each
component-adding method (`{'type': 'tone', ...}` etc.). -/
inductive Component (α : Type) : Type
  | tone (freq : α) (amp : α) : Component α
  | noise (amp : α) : Component α
  | chord (midfreq : α) (factor : α) (ntones : ℤ) (amp : α) : Component α
deriving DecidableEq

/-- The state of a `Sound` object: duration, sampling rate, time vector,
waveform buffer and the component log. -/
structure Sound (α : Type) where
  duration : α
  srate : α
  tvec : List α
  wave : List α
  components : List (Component α)

/-- `np.arange(0, stop, step)`: the values `i * step` for
`0 ≤ i < ⌈stop / step⌉` (empty when `stop / step ≤ 0`). -/
def npArange {α : Type} [LinearOrderedField α] [FloorRing α]
    (stop step : α) : List α :=
  (List.range (⌈stop / step⌉).toNat).map (fun i : ℕ => (i : α) * step)

/-- `np.linspace(a, b, n)`: `n` evenly spaced values from `a` to `b`
inclusive; `[a]` when `n = 1` (the `i = 0` term is `a` because junk
division `x / 0 = 0` reproduces numpy's special case), empty when `n = 0`. -/
def linspace {α : Type} [Field α] (a b : α) (n : ℕ) : List α :=
  (List.range n).map (fun i : ℕ => a + (i : α) * ((b - a) / ((n : α) - 1)))

/-- `np.logspace(a, b, n)` with the default base 10:
`10 ^ linspace(a, b, n)` elementwise, with the power supplied abstractly. -/
def logspace10 {α : Type} [Field α] (exp10 : α → α) (a b : α) (n : ℕ) :
    List α :=
  (linspace a b n).map exp10

/-- Python 3 `round` on an exact value: round half to even. -/
def pyRound {α : Type} [LinearOrderedField α] [FloorRing α] (q : α) : ℤ :=
  if q - ⌊q⌋ < 1/2 then ⌊q⌋
  else if 1/2 < q - ⌊q⌋ then ⌊q⌋ + 1
  else if ⌊q⌋ % 2 = 0 then ⌊q⌋ else ⌊q⌋ + 1

/-- Truncation toward zero, the conversion a C-style float-to-integer cast
(numpy `astype`) performs. -/
def truncZ {α : Type} [LinearOrderedField α] [FloorRing α] (q : α) : ℤ :=
  if 0 ≤ q then ⌊q⌋ else ⌈q⌉

/-- Reduction of an integer into the 16-bit two's-complement range
`[-32768, 32767]`, as numpy `astype('int16')` wraps out-of-range values. -/
def wrap16 (z : ℤ) : ℤ :=
  (z + 32768) % 65536 - 32768

namespace Sound

variable {α : Type} [LinearOrderedField α] [FloorRing α]

/-- `Sound.__init__(duration, srate)`: stores the parameters, builds
`tvec = np.arange(0, duration, 1/srate)` and `wave = np.zeros(len(tvec))`,
and starts with an empty component list.  `1/srate` raises
`ZeroDivisionError` in Python when `srate == 0`; no other validation is
performed. -/
def init (duration srate : α) : Except PyErr (Sound α) :=
  if srate = 0 then .error .zeroDivisionError
  else
    let tv := npArange duration (1 / srate)
    .ok { duration := duration, srate := srate, tvec := tv,
          wave := List.replicate tv.length 0, components := [] }

/-- `Sound.add_tone(freq, amp)`:
`wave += amp * np.sin(2*np.pi*freq*tvec)` followed by appending a tone
record. -/
def add_tone (C : SigCtx α) (s : Sound α) (freq : α) (amp : α) : Sound α :=
  { s with
    wave := List.zipWith (fun w t => w + amp * C.sin (2 * C.pi * freq * t))
      s.wave s.tvec,
    components := s.components ++ [.tone freq amp] }

/-- `Sound.add_noise(amp)`:
`wave += amp * randomGen.uniform(-1, 1, len(tvec))`, with the random
draws injected as the sequence `u`, followed by appending a noise record. -/
def add_noise (u : ℕ → α) (s : Sound α) (amp : α) : Sound α :=
  { s with
    wave := List.zipWith (fun w x => w + amp * x)
      s.wave ((List.range s.tvec.length).map u),
    components := s.components ++ [.noise amp] }

/-- `Sound.add_chord(midfreq, factor, ntones, amp)`: computes
`np.logspace(np.log10(midfreq/factor), np.log10(midfreq*factor), ntones)`
(`midfreq/factor` raises `ZeroDivisionError` when `factor == 0`;
`np.linspace` raises `ValueError` when `ntones < 0`), draws one random
phase per tone (injected as `phase`), adds each sine component to the
buffer in turn, and appends a single chord record. -/
def add_chord (C : SigCtx α) (phase : ℕ → α) (s : Sound α)
    (midfreq factor : α) (ntones : ℤ) (amp : α) : Except PyErr (Sound α) :=
  if factor = 0 then .error .zeroDivisionError
  else if ntones < 0 then .error .valueError
  else
    let freqs := logspace10 C.exp10 (C.log10 (midfreq / factor))
      (C.log10 (midfreq * factor)) ntones.toNat
    .ok { s with
      wave := (List.range ntones.toNat).foldl
        (fun w k => List.zipWith
          (fun wi t => wi + amp * C.sin (2 * C.pi * freqs.getD k 0 * t + phase k))
          w s.tvec) s.wave,
      components := s.components ++ [.chord midfreq factor ntones amp] }

/-- `Sound.apply_rise_fall(riseTime, fallTime)`:
`nR = round(srate*riseTime)`, `nF = round(srate*fallTime)`;
`wave[:nR] *= np.linspace(0, 1, nR)` and `wave[-nF:] *= np.linspace(1, 0, nF)`.
`np.linspace` raises `ValueError` on a negative count; the in-place
products raise `ValueError` when the ramp does not broadcast onto the
slice — in particular `wave[-0:]` is the whole buffer, so `nF = 0` on a
non-empty buffer fails.  The ramp values are `i/(nR-1)` and `1 - i/(nF-1)`
(via junk division, `linspace(0,1,1) = [0]` and `linspace(1,0,1) = [1]`). -/
def apply_rise_fall (s : Sound α) (riseTime fallTime : α) :
    Except PyErr (Sound α) :=
  let nR := pyRound (s.srate * riseTime)
  let nF := pyRound (s.srate * fallTime)
  if nR < 0 ∨ nF < 0 then .error .valueError
  else
    let nRn := nR.toNat
    let nFn := nF.toNat
    let L := s.wave.length
    if ¬ (nRn ≤ L ∨ nRn = 1) then .error .valueError
    else if ¬ (if nFn = 0 then L = 0 else (nFn ≤ L ∨ nFn = 1)) then
      .error .valueError
    else
      let w1 := s.wave.mapIdx (fun i w =>
        if i < nRn then w * ((i : α) / ((nRn : α) - 1)) else w)
      let w2 := w1.mapIdx (fun i w =>
        if L - nFn ≤ i then w * (1 - ((i - (L - nFn) : ℕ) : α) / ((nFn : α) - 1))
        else w)
      .ok { s with wave := w2 }

end Sound

/-- Python `str.strip(c)` for a single-character set: removes every
leading and trailing occurrence of `c`. -/
def pyStrip (c : Char) (s : String) : String :=
  String.mk (((s.data.dropWhile (· = c)).reverse.dropWhile (· = c)).reverse)

/-- The per-record fragment built by `Sound.suggest_filename`: the type
tag, plus `f"{freq}Hz"` for a tone or `f"{midfreq}Hz"` for a chord, with
the Python rendering of numbers injected as `fmt`. -/
def compString {α : Type} (fmt : α → String) : Component α → String
  | .tone f _ => "tone" ++ fmt f ++ "Hz"
  | .noise _ => "noise"
  | .chord mf _ _ _ => "chord" ++ fmt mf ++ "Hz"

/-- `Sound.suggest_filename(suffix)`: concatenates each record fragment
followed by an underscore, then `strip('_')`, then appends `suffix` and
`".wav"`. -/
def Sound.suggest_filename {α : Type} (fmt : α → String) (s : Sound α)
    (suffix : String) : String :=
  pyStrip '_'
    (s.components.foldl (fun acc comp => acc ++ (compString fmt comp ++ "_")) "")
    ++ suffix ++ ".wav"

/-- Python `wavefile.replace(".wav", ".txt")`: replaces every
(left-to-right, non-overlapping) occurrence, specialised to this pattern. -/
def replaceWavTxt : List Char → List Char
  | '.' :: 'w' :: 'a' :: 'v' :: rest => '.' :: 't' :: 'x' :: 't' :: replaceWavTxt rest
  | c :: rest => c :: replaceWavTxt rest
  | [] => []

/-- String wrapper for `replaceWavTxt`. -/
def pyReplaceWavTxt (s : String) : String :=
  String.mk (replaceWavTxt s.data)

/-- Python `s[-4:]`: the last `min 4 (len s)` characters. -/
def strTail4 (s : String) : String :=
  String.mk (s.data.drop (s.data.length - 4))

/-- `str(record)` for one component dictionary, with the Python number
rendering injected as `fmt`. -/
def componentRepr {α : Type} (fmt : α → String) : Component α → String
  | .tone f a =>
      "\x7b\x27type\x27: \x27tone\x27, \x27freq\x27: " ++ fmt f ++
        ", \x27amp\x27: " ++ fmt a ++ "\x7d"
  | .noise a =>
      "\x7b\x27type\x27: \x27noise\x27, \x27amp\x27: " ++ fmt a ++ "\x7d"
  | .chord mf fa nt a =>
      "\x7b\x27type\x27: \x27chord\x27, \x27midfreq\x27: " ++ fmt mf ++
        ", \x27factor\x27: " ++ fmt fa ++ ", \x27ntones\x27: " ++ toString nt ++
        ", \x27amp\x27: " ++ fmt a ++ "\x7d"

/-- The two files written by a successful `Sound.save`: the WAV file (its
name and its 16-bit payload) and the info text file (its name and its
lines, one per component record). -/
structure SaveResult : Type where
  wavName : String
  wavData : List ℤ
  infoName : String
  infoLines : List String
deriving DecidableEq

/-- `Sound.save(wavefile, infofile)`: if `wavefile[-4:] != ".wav"` it
prints a message and returns having written nothing (`none`); otherwise
it writes `(32767*wave).astype('int16')` to `wavefile` and one line per
component record to `infofile` (defaulting to
`wavefile.replace(".wav", ".txt")`). -/
def Sound.save {α : Type} [LinearOrderedField α] [FloorRing α]
    (fmt : α → String) (s : Sound α) (wavefile : String)
    (infofile : Option String) : Option SaveResult :=
  if strTail4 wavefile ≠ ".wav" then none
  else some
    { wavName := wavefile
      wavData := s.wave.map (fun w => wrap16 (truncZ (32767 * w)))
      infoName :=
        match infofile with
        | some f => f
        | none => pyReplaceWavTxt wavefile
      infoLines := s.components.map (componentRepr fmt) }

/-- The buffer/time-vector length equality that `Sound.__init__` sets up
and every operation is supposed to maintain. -/
def Sound.lengthInvariant {α : Type} (s : Sound α) : Prop :=
  s.wave.length = s.tvec.length

/-- Rendering of a rational in Python style, agreeing with Python's
`str` on integer values (the only values the concrete examples use). -/
def pyFmtQ (q : ℚ) : String :=
  if q.den = 1 then toString q.num
  else toString q.num ++ "/" ++ toString q.den

/-- Modelled from the spec: the underscore-joining of the per-record
fragments that `suggestFilename` is described as producing
(`{componentType}{optionalFreqHz}_..._`, underscore-joined).  Used to
compare the code's build-then-strip loop against the spec's wording. -/
def specJoinUnderscore : List String → String
  | [] => ""
  | [p] => p
  | p :: ps => p ++ "_" ++ specJoinUnderscore ps

/-- A string that `strip("_")` cannot shorten: non-empty, and neither its
first nor its last character is an underscore.  Every per-record fragment
of `suggest_filename` has this shape. -/
def underscoreTrimSafe (p : String) : Prop :=
  p.data ≠ [] ∧ p.data.head? ≠ some '_' ∧ p.data.reverse.head? ≠ some '_'

/-- A trivial concrete signal context over `ℚ`, used to exercise the
generic theorems on explicit inputs. -/
def qIdCtx : SigCtx ℚ :=
  { sin := fun x => x, pi := 3, log10 := fun x => x, exp10 := fun x => x }

section Helpers

variable {α : Type} [LinearOrderedField α] [FloorRing α]

lemma length_npArange (stop step : α) :
    (npArange stop step).length = (⌈stop / step⌉).toNat := by
  simp only [npArange, List.length_map, List.length_range]

lemma getD_npArange (stop step : α) (i : ℕ)
    (h : i < (npArange stop step).length) :
    (npArange stop step).getD i 0 = (i : α) * step := by
  rw [List.getD_eq_getElem _ _ h]
  simp only [npArange, List.getElem_map, List.getElem_range]

lemma Sound.init_ok {d r : α} (hr : r ≠ 0) :
    Sound.init d r = .ok ⟨d, r, npArange d (1/r),
      List.replicate (npArange d (1/r)).length 0, []⟩ := by
  rw [Sound.init, if_neg hr]

lemma Sound.add_tone_wave_length (C : SigCtx α) (s : Sound α) (f a : α)
    (h : s.lengthInvariant) :
    (Sound.add_tone C s f a).wave.length = s.wave.length := by
  simp [Sound.add_tone, List.length_zipWith, Sound.lengthInvariant] at *
  omega

lemma Sound.add_tone_wave_getD (C : SigCtx α) (s : Sound α) (f a : α)
    (h : s.lengthInvariant) (i : ℕ) (hi : i < s.wave.length) :
    (Sound.add_tone C s f a).wave.getD i 0 =
      s.wave.getD i 0 + a * C.sin (2 * C.pi * f * s.tvec.getD i 0) := by
  have hlen : (Sound.add_tone C s f a).wave.length = s.wave.length :=
    Sound.add_tone_wave_length C s f a h
  have hit : i < s.tvec.length := h ▸ hi
  have hiz : i < (Sound.add_tone C s f a).wave.length := hlen ▸ hi
  rw [List.getD_eq_getElem _ _ hiz, List.getD_eq_getElem _ _ hi,
    List.getD_eq_getElem _ _ hit]
  simp only [Sound.add_tone, List.getElem_zipWith]

lemma Sound.add_noise_wave_length (u : ℕ → α) (s : Sound α) (a : α)
    (h : s.lengthInvariant) :
    (Sound.add_noise u s a).wave.length = s.wave.length := by
  simp [Sound.add_noise, List.length_zipWith, Sound.lengthInvariant] at *
  omega

lemma foldl_zipWith_add (tv : List α) (g : ℕ → α → α) :
    ∀ (ks : List ℕ) (w : List α), w.length = tv.length →
      ((ks.foldl (fun w k => List.zipWith (fun wi t => wi + g k t) w tv) w).length
          = w.length ∧
        ∀ i, i < w.length →
          (ks.foldl (fun w k => List.zipWith (fun wi t => wi + g k t) w tv)
              w).getD i 0 =
            w.getD i 0 + ((ks.map (fun k => g k (tv.getD i 0))).sum)) := by
  intro ks
  induction ks with
  | nil =>
      intro w hw
      simp
  | cons k ks ih =>
      intro w hw
      have hw' : (List.zipWith (fun wi t => wi + g k t) w tv).length = tv.length := by
        simp [List.length_zipWith, hw]
      obtain ⟨ihlen, ihget⟩ := ih (List.zipWith (fun wi t => wi + g k t) w tv) hw'
      constructor
      · simpa [List.foldl_cons, ihlen, hw'] using hw.symm ▸ rfl
      · intro i hi
        have hi2 : i < (List.zipWith (fun wi t => wi + g k t) w tv).length := by
          omega
        have hit : i < tv.length := by omega
        rw [List.foldl_cons]
        rw [ihget i (by omega)]
        rw [List.getD_eq_getElem _ _ hi2, List.getElem_zipWith]
        rw [List.getD_eq_getElem _ _ hi, List.getD_eq_getElem _ _ hit]
        simp [List.map_cons, List.sum_cons]
        ring

end Helpers

section MoreHelpers

variable {α : Type} [LinearOrderedField α] [FloorRing α]

lemma Sound.add_chord_ok (C : SigCtx α) (phase : ℕ → α) (s : Sound α)
    (mf fa : α) (nt : ℤ) (amp : α) (hfa : fa ≠ 0) (hnt : ¬ nt < 0) :
    Sound.add_chord C phase s mf fa nt amp = .ok { s with
      wave := (List.range nt.toNat).foldl
        (fun w k => List.zipWith
          (fun wi t => wi + amp * C.sin (2 * C.pi *
            ((logspace10 C.exp10 (C.log10 (mf / fa)) (C.log10 (mf * fa))
              nt.toNat).getD k 0) * t + phase k))
          w s.tvec) s.wave,
      components := s.components ++ [.chord mf fa nt amp] } := by
  rw [Sound.add_chord, if_neg hfa, if_neg hnt]

lemma Sound.add_chord_ok_spec (C : SigCtx α) (phase : ℕ → α) (s : Sound α)
    (mf fa : α) (nt : ℤ) (amp : α) (hfa : fa ≠ 0) (hnt : ¬ nt < 0)
    (hinv : s.lengthInvariant) :
    ∃ s', Sound.add_chord C phase s mf fa nt amp = .ok s' ∧
      s'.duration = s.duration ∧ s'.srate = s.srate ∧ s'.tvec = s.tvec ∧
      s'.components = s.components ++ [.chord mf fa nt amp] ∧
      s'.wave.length = s.wave.length ∧
      ∀ i, i < s.wave.length → s'.wave.getD i 0 = s.wave.getD i 0 +
        ((List.range nt.toNat).map (fun k =>
          amp * C.sin (2 * C.pi *
            ((logspace10 C.exp10 (C.log10 (mf / fa)) (C.log10 (mf * fa))
              nt.toNat).getD k 0) * s.tvec.getD i 0 + phase k))).sum := by
  obtain ⟨hlen, hget⟩ := foldl_zipWith_add s.tvec
    (fun k t => amp * C.sin (2 * C.pi *
      ((logspace10 C.exp10 (C.log10 (mf / fa)) (C.log10 (mf * fa))
        nt.toNat).getD k 0) * t + phase k))
    (List.range nt.toNat) s.wave hinv
  exact ⟨_, Sound.add_chord_ok C phase s mf fa nt amp hfa hnt,
    rfl, rfl, rfl, rfl, hlen, hget⟩

lemma Sound.apply_rise_fall_eq_ok {s s' : Sound α} {rT fT : α}
    (h : Sound.apply_rise_fall s rT fT = .ok s') :
    s'.duration = s.duration ∧ s'.srate = s.srate ∧ s'.tvec = s.tvec ∧
    s'.components = s.components ∧ s'.wave.length = s.wave.length := by
  simp only [Sound.apply_rise_fall] at h
  split_ifs at h
  all_goals first
    | exact Except.noConfusion h
    | (injection h with h'
       subst h'
       exact ⟨rfl, rfl, rfl, rfl, by simp [List.length_mapIdx]⟩)

end MoreHelpers

/-- C1 (amended): construction performs no parameter validation and never
raises InvalidParameter.  The only constructor failure is
`ZeroDivisionError` from `1/srate` when `sampleRate = 0`; for any
`sampleRate ≠ 0` and any `duration` (including `duration ≤ 0`)
construction succeeds and yields all-zero samples and an empty
componentLog, the buffer being empty whenever `duration ≤ 0` and
`sampleRate > 0` — in particular for `duration > 0`, `sampleRate > 0` it
succeeds exactly as the original claim states. -/
theorem C1_init_validation {α : Type} [LinearOrderedField α] [FloorRing α]
    (d r : α) :
    (r = 0 → Sound.init d r = .error .zeroDivisionError) ∧
    (r ≠ 0 → ∃ s : Sound α, Sound.init d r = .ok s ∧
      s.wave = List.replicate s.tvec.length 0 ∧
      s.components = [] ∧
      (d ≤ 0 → 0 < r → s.wave = [] ∧ s.tvec = [])) := by
  constructor
  · intro h
    rw [Sound.init, if_pos h]
  · intro hr
    refine ⟨_, Sound.init_ok hr, rfl, rfl, ?_⟩
    intro hd hrpos
    have hq : d / (1/r) ≤ 0 := by
      rw [div_div_eq_mul_div, div_one]
      nlinarith
    have hc : (⌈d / (1/r)⌉ : ℤ) ≤ 0 := Int.ceil_le.mpr (by exact_mod_cast hq)
    have hlen : (npArange d (1/r)).length = 0 := by
      rw [length_npArange]
      omega
    have htv : npArange d (1/r) = [] := List.eq_nil_of_length_eq_zero hlen
    constructor
    · show List.replicate (npArange d (1/r)).length (0:α) = []
      rw [hlen]
      rfl
    · exact htv

/-- Witness for C1 at concrete inputs: `Sound(1, 0)` raises
`ZeroDivisionError`, and `Sound(-1, 2)` constructs successfully with an
empty all-zero buffer. -/
theorem C1_init_validation_witness :
    Sound.init (1 : ℚ) 0 = .error .zeroDivisionError ∧
    ∃ s : Sound ℚ, Sound.init (-1 : ℚ) 2 = .ok s ∧
      s.wave = List.replicate s.tvec.length 0 ∧
      s.components = [] ∧
      ((-1 : ℚ) ≤ 0 → 0 < (2 : ℚ) → s.wave = [] ∧ s.tvec = []) :=
  ⟨(C1_init_validation (1 : ℚ) 0).1 rfl,
    (C1_init_validation (-1 : ℚ) 2).2 (by norm_num)⟩

/-- C1 counterexample: constructing with `duration = -1 ≤ 0` does not
fail at all (no `InvalidParameter`): `Sound(-1, 1)` succeeds. -/
theorem C1_cex_negative_duration_constructs :
    (Sound.init (-1 : ℚ) 1).isOk = true := by
  rw [Sound.init_ok (by norm_num : (1 : ℚ) ≠ 0)]
  rfl

/-- C2 (amended): for `duration > 0`, `sampleRate > 0` the time vector
and sample buffer both have length `⌈duration * sampleRate⌉` (numpy
`arange` takes the ceiling, not the floor, of `duration * sampleRate`
when it is not an integer), the i-th time entry is `i / sampleRate`, and
`len(samples) == len(timeVector)` is preserved by `addTone`, `addNoise`,
`addChord` and `applyRiseFall` (whenever the latter two return at all). -/
theorem C2_length_invariants {α : Type} [LinearOrderedField α] [FloorRing α] :
    (∀ d r : α, 0 < d → 0 < r →
      ∃ s : Sound α, Sound.init d r = .ok s ∧
        s.tvec.length = (⌈d * r⌉).toNat ∧
        s.wave.length = s.tvec.length ∧
        (∀ i : ℕ, i < s.tvec.length → s.tvec.getD i 0 = (i : α) / r)) ∧
    (∀ (C : SigCtx α) (s : Sound α) (f a : α), s.lengthInvariant →
      (Sound.add_tone C s f a).lengthInvariant ∧
      (Sound.add_tone C s f a).wave.length = s.wave.length) ∧
    (∀ (u : ℕ → α) (s : Sound α) (a : α), s.lengthInvariant →
      (Sound.add_noise u s a).lengthInvariant ∧
      (Sound.add_noise u s a).wave.length = s.wave.length) ∧
    (∀ (C : SigCtx α) (phase : ℕ → α) (s s' : Sound α) (mf fa amp : α) (nt : ℤ),
      s.lengthInvariant → Sound.add_chord C phase s mf fa nt amp = .ok s' →
      s'.lengthInvariant ∧ s'.wave.length = s.wave.length) ∧
    (∀ (s s' : Sound α) (rT fT : α), s.lengthInvariant →
      Sound.apply_rise_fall s rT fT = .ok s' →
      s'.lengthInvariant ∧ s'.wave.length = s.wave.length) := by
  have hdiv : ∀ d r : α, r ≠ 0 → d / (1/r) = d * r := by
    intro d r hr
    rw [div_div_eq_mul_div, div_one]
  refine ⟨?_, ?_, ?_, ?_, ?_⟩
  · intro d r hd hr
    refine ⟨_, Sound.init_ok (ne_of_gt hr), ?_, ?_, ?_⟩
    · show (npArange d (1/r)).length = _
      rw [length_npArange, hdiv d r (ne_of_gt hr)]
    · simp
    · intro i hi
      show (npArange d (1/r)).getD i 0 = _
      rw [getD_npArange d (1/r) i hi, mul_one_div]
  · intro C s f a h
    have hl := Sound.add_tone_wave_length C s f a h
    exact ⟨by simpa [Sound.lengthInvariant, Sound.add_tone] using hl.trans h, hl⟩
  · intro u s a h
    have hl := Sound.add_noise_wave_length u s a h
    exact ⟨by simpa [Sound.lengthInvariant, Sound.add_noise] using hl.trans h, hl⟩
  · intro C phase s s' mf fa amp nt h hok
    by_cases hfa : fa = 0
    · rw [Sound.add_chord, if_pos hfa] at hok
      exact Except.noConfusion hok
    by_cases hnt : nt < 0
    · rw [Sound.add_chord, if_neg hfa, if_pos hnt] at hok
      exact Except.noConfusion hok
    obtain ⟨s'', heq, _, _, htv, _, hlen, _⟩ :=
      Sound.add_chord_ok_spec C phase s mf fa nt amp hfa hnt h
    rw [heq] at hok
    injection hok with h'
    subst h'
    exact ⟨by simpa [Sound.lengthInvariant, htv] using hlen.trans h, hlen⟩
  · intro s s' rT fT h hok
    obtain ⟨_, _, htv, _, hlen⟩ := Sound.apply_rise_fall_eq_ok hok
    exact ⟨by simpa [Sound.lengthInvariant, htv] using hlen.trans h, hlen⟩

/-- Witness for C2 at a concrete input: `Sound(1/2, 3)` has
`len(tvec) = ⌈3/2⌉ = 2 = len(wave)` with `tvec = [0, 1/3]`, and the
preservation clauses applied to a concrete state. -/
theorem C2_length_invariants_witness :
    (∃ s : Sound ℚ, Sound.init (1/2 : ℚ) 3 = .ok s ∧
      s.tvec.length = (⌈(1/2 : ℚ) * 3⌉).toNat ∧
      s.wave.length = s.tvec.length ∧
      (∀ i : ℕ, i < s.tvec.length → s.tvec.getD i 0 = (i : ℚ) / 3)) ∧
    ((Sound.add_tone qIdCtx ⟨1, 1, [0], [0], []⟩ 440 1).lengthInvariant ∧
      (Sound.add_tone qIdCtx ⟨1, 1, [0], [0], []⟩ 440 1).wave.length =
        (⟨1, 1, [0], [0], []⟩ : Sound ℚ).wave.length) :=
  ⟨(C2_length_invariants.1 : _) (1/2 : ℚ) 3 (by norm_num) (by norm_num),
    C2_length_invariants.2.1 qIdCtx ⟨1, 1, [0], [0], []⟩ 440 1 rfl⟩

/-- C2 counterexample: the original claim says the buffers have length
`floor(duration * sampleRate)`; for `duration = 1/2`, `sampleRate = 3`
the code builds `np.arange(0, 1/2, 1/3) = [0, 1/3]` of length 2, while
`floor(1/2 * 3) = 1`. -/
theorem C2_cex_ceil_not_floor :
    (Sound.init (1/2 : ℚ) 3).toOption.map (fun s => s.tvec.length) = some 2 ∧
    (⌊(1/2 : ℚ) * 3⌋ : ℤ) = 1 := by
  constructor
  · rw [Sound.init_ok (by norm_num : (3 : ℚ) ≠ 0)]
    have hc : (⌈(1/2 : ℚ) / (1/3)⌉ : ℤ) = 2 := by
      rw [Int.ceil_eq_iff]
      constructor
      · norm_num
      · norm_num
    simp only [Except.toOption, Option.map]
    rw [length_npArange, hc]
    rfl
  · rw [Int.floor_eq_iff]
    constructor
    · norm_num
    · norm_num

/-- C3: `addTone(frequency, amplitude)` adds
`amplitude * sin(2*pi*frequency*t_i)` to the buffer at every index (for
any frequency, with no error possible), appends exactly one Tone record
carrying that frequency and amplitude, and is additive: a second
identical call leaves every sample with twice the tone's contribution. -/
theorem C3_add_tone_spec {α : Type} [LinearOrderedField α] [FloorRing α]
    (C : SigCtx α) (s : Sound α) (f a : α) (hinv : s.lengthInvariant) :
    (Sound.add_tone C s f a).wave.length = s.wave.length ∧
    (Sound.add_tone C s f a).tvec = s.tvec ∧
    (∀ i : ℕ, i < s.wave.length →
      (Sound.add_tone C s f a).wave.getD i 0 =
        s.wave.getD i 0 + a * C.sin (2 * C.pi * f * s.tvec.getD i 0)) ∧
    (Sound.add_tone C s f a).components = s.components ++ [.tone f a] ∧
    (∀ i : ℕ, i < s.wave.length →
      (Sound.add_tone C (Sound.add_tone C s f a) f a).wave.getD i 0 =
        s.wave.getD i 0 + 2 * (a * C.sin (2 * C.pi * f * s.tvec.getD i 0))) := by
  have hl := Sound.add_tone_wave_length C s f a hinv
  have hinv' : (Sound.add_tone C s f a).lengthInvariant := by
    simpa [Sound.lengthInvariant, Sound.add_tone] using hl.trans hinv
  refine ⟨hl, rfl, fun i hi => Sound.add_tone_wave_getD C s f a hinv i hi,
    rfl, ?_⟩
  intro i hi
  have hi' : i < (Sound.add_tone C s f a).wave.length := hl ▸ hi
  rw [Sound.add_tone_wave_getD C (Sound.add_tone C s f a) f a hinv' i hi']
  rw [Sound.add_tone_wave_getD C s f a hinv i hi]
  have htv : (Sound.add_tone C s f a).tvec = s.tvec := rfl
  rw [htv]
  ring

/-- Witness for C3 on a concrete state: the single-sample sound
`⟨1, 1, [0], [0], []⟩` over `ℚ` with the identity test context. -/
theorem C3_add_tone_spec_witness :
    (Sound.add_tone qIdCtx ⟨1, 1, [0], [0], []⟩ 440 (1/2)).wave.length =
      (⟨1, 1, [0], [0], []⟩ : Sound ℚ).wave.length ∧
    (Sound.add_tone qIdCtx ⟨1, 1, [0], [0], []⟩ 440 (1/2)).tvec =
      (⟨1, 1, [0], [0], []⟩ : Sound ℚ).tvec ∧
    (∀ i : ℕ, i < (⟨1, 1, [0], [0], []⟩ : Sound ℚ).wave.length →
      (Sound.add_tone qIdCtx ⟨1, 1, [0], [0], []⟩ 440 (1/2)).wave.getD i 0 =
        (⟨1, 1, [0], [0], []⟩ : Sound ℚ).wave.getD i 0 +
          (1/2) * qIdCtx.sin (2 * qIdCtx.pi * 440 *
            (⟨1, 1, [0], [0], []⟩ : Sound ℚ).tvec.getD i 0)) ∧
    (Sound.add_tone qIdCtx ⟨1, 1, [0], [0], []⟩ 440 (1/2)).components =
      (⟨1, 1, [0], [0], []⟩ : Sound ℚ).components ++ [.tone 440 (1/2)] ∧
    (∀ i : ℕ, i < (⟨1, 1, [0], [0], []⟩ : Sound ℚ).wave.length →
      (Sound.add_tone qIdCtx
          (Sound.add_tone qIdCtx ⟨1, 1, [0], [0], []⟩ 440 (1/2)) 440 (1/2)).wave.getD i 0 =
        (⟨1, 1, [0], [0], []⟩ : Sound ℚ).wave.getD i 0 +
          2 * ((1/2) * qIdCtx.sin (2 * qIdCtx.pi * 440 *
            (⟨1, 1, [0], [0], []⟩ : Sound ℚ).tvec.getD i 0))) :=
  C3_add_tone_spec qIdCtx ⟨1, 1, [0], [0], []⟩ 440 (1/2) rfl

/-- C4 (amended): `addChord` performs no explicit parameter validation
and never raises InvalidParameter.  `factor = 0` raises
`ZeroDivisionError` from `midFrequency/factor` before the buffer is
touched; `toneCount < 0` raises `ValueError` (from `np.linspace` inside
`np.logspace`); any `toneCount ≥ 0` with `factor ≠ 0` succeeds — in
particular `toneCount = 0` (which the claim says must fail) succeeds,
leaves the buffer unmodified and still appends a Chord record. -/
theorem C4_add_chord_validation {α : Type} [LinearOrderedField α] [FloorRing α]
    (C : SigCtx α) (phase : ℕ → α) (s : Sound α)
    (mf fa : α) (nt : ℤ) (amp : α) :
    (fa = 0 → Sound.add_chord C phase s mf fa nt amp = .error .zeroDivisionError) ∧
    (fa ≠ 0 → nt < 0 → Sound.add_chord C phase s mf fa nt amp = .error .valueError) ∧
    (fa ≠ 0 → ¬ nt < 0 → ∃ s', Sound.add_chord C phase s mf fa nt amp = .ok s' ∧
      s'.components = s.components ++ [.chord mf fa nt amp]) ∧
    (fa ≠ 0 → nt = 0 → ∃ s', Sound.add_chord C phase s mf fa nt amp = .ok s' ∧
      s'.wave = s.wave ∧
      s'.components = s.components ++ [.chord mf fa nt amp]) := by
  refine ⟨?_, ?_, ?_, ?_⟩
  · intro hfa
    rw [Sound.add_chord, if_pos hfa]
  · intro hfa hnt
    rw [Sound.add_chord, if_neg hfa, if_pos hnt]
  · intro hfa hnt
    exact ⟨_, Sound.add_chord_ok C phase s mf fa nt amp hfa hnt, rfl⟩
  · intro hfa hnt
    subst hnt
    refine ⟨_, Sound.add_chord_ok C phase s mf fa 0 amp hfa (by omega), ?_, rfl⟩
    rfl

/-- Witness for C4 at concrete inputs over `ℚ`: `factor = 0` raises
`ZeroDivisionError`, and `toneCount = 0` with `factor = 1` succeeds with
an unchanged buffer and one appended record. -/
theorem C4_add_chord_validation_witness :
    Sound.add_chord qIdCtx (fun _ => 0) (⟨1, 1, [0], [0], []⟩ : Sound ℚ)
      1000 0 5 1 = .error .zeroDivisionError ∧
    ∃ s', Sound.add_chord qIdCtx (fun _ => 0) (⟨1, 1, [0], [0], []⟩ : Sound ℚ)
        1000 1 0 1 = .ok s' ∧
      s'.wave = (⟨1, 1, [0], [0], []⟩ : Sound ℚ).wave ∧
      s'.components = (⟨1, 1, [0], [0], []⟩ : Sound ℚ).components ++
        [.chord 1000 1 0 1] :=
  ⟨(C4_add_chord_validation qIdCtx (fun _ => 0) ⟨1, 1, [0], [0], []⟩
      1000 0 5 1).1 rfl,
    (C4_add_chord_validation qIdCtx (fun _ => 0) ⟨1, 1, [0], [0], []⟩
      1000 1 0 1).2.2.2 (by norm_num) rfl⟩

/-- C4 counterexample: `addChord` with `toneCount = 0 < 1` does not fail
with InvalidParameter (or at all): it returns normally. -/
theorem C4_cex_zero_tones_succeeds :
    (Sound.add_chord qIdCtx (fun _ => 0) (⟨1, 1, [0], [0], []⟩ : Sound ℚ)
      1000 1 0 1).isOk = true := by
  rw [Sound.add_chord_ok qIdCtx (fun _ => 0) ⟨1, 1, [0], [0], []⟩ 1000 1 0 1
    (by norm_num) (by omega)]
  rfl

/-- C6 (amended): at save time every sample `s` is converted to a 16-bit
signed integer by truncation toward zero of `s * 32767` (the C-cast
semantics of numpy `astype('int16')`), not by rounding; out-of-range
values silently wrap into `[-32768, 32767]` per 16-bit two's-complement
encoding, the Composer performs no clipping, and normalized samples
(`|s| ≤ 1`) are never altered by the wrap. -/
theorem C6_save_quantization {α : Type} [LinearOrderedField α] [FloorRing α]
    (fmt : α → String) (s : Sound α) (wavefile : String)
    (infofile : Option String) :
    (∀ r, Sound.save fmt s wavefile infofile = some r →
      r.wavData.length = s.wave.length ∧
      ∀ i : ℕ, i < s.wave.length →
        r.wavData.getD i 0 = wrap16 (truncZ (32767 * s.wave.getD i 0))) ∧
    (∀ q : α, -32768 ≤ wrap16 (truncZ (32767 * q)) ∧
      wrap16 (truncZ (32767 * q)) ≤ 32767) ∧
    (∀ q : α, |q| ≤ 1 → wrap16 (truncZ (32767 * q)) = truncZ (32767 * q)) := by
  refine ⟨?_, ?_, ?_⟩
  · intro r hr
    rw [Sound.save.eq_def] at hr
    split_ifs at hr
    injection hr with hr'
    subst hr'
    refine ⟨by simp, ?_⟩
    intro i hi
    have hi' : i < (s.wave.map (fun w => wrap16 (truncZ (32767 * w)))).length := by
      simpa using hi
    rw [List.getD_eq_getElem _ _ hi', List.getD_eq_getElem _ _ hi,
      List.getElem_map]
  · intro q
    have h1 : 0 ≤ (truncZ (32767 * q) + 32768) % 65536 :=
      Int.emod_nonneg _ (by norm_num)
    have h2 : (truncZ (32767 * q) + 32768) % 65536 < 65536 :=
      Int.emod_lt_of_pos _ (by norm_num)
    rw [wrap16]
    omega
  · intro q hq
    obtain ⟨hq1, hq2⟩ := abs_le.mp hq
    have hb : -32768 ≤ truncZ (32767 * q) ∧ truncZ (32767 * q) ≤ 32767 := by
      rw [truncZ]
      split_ifs with h0
      · constructor
        · have := Int.floor_nonneg.mpr h0
          omega
        · have : (⌊(32767 : α) * q⌋ : ℤ) ≤ 32767 := by
            rw [Int.floor_le_iff]
            push_cast
            nlinarith
          omega
      · constructor
        · have : (-32768 : ℤ) ≤ ⌈(32767 : α) * q⌉ := by
            have h3 : ((-32768 : ℤ) : α) ≤ (32767 : α) * q := by
              push_cast
              nlinarith
            exact le_trans (Int.le_ceil_iff.mpr (by push_cast; nlinarith)) le_rfl
          omega
        · have : (⌈(32767 : α) * q⌉ : ℤ) ≤ 32767 := by
            rw [Int.ceil_le]
            push_cast
            nlinarith
          omega
    rw [wrap16, Int.emod_eq_of_lt (by omega) (by omega)]
    omega

/-- Witness for C6: saving the single-sample buffer `[1/2]` succeeds and
the sample `1/2` is normalized, so the wrap is the identity on it. -/
theorem C6_save_quantization_witness :
    ({ wavName := "a.wav",
       wavData := [wrap16 (truncZ ((32767 : ℚ) * (1/2)))],
       infoName := pyReplaceWavTxt "a.wav",
       infoLines := [] } : SaveResult).wavData.length =
      (⟨1, 1, [0], [1/2], []⟩ : Sound ℚ).wave.length ∧
    wrap16 (truncZ (32767 * ((1:ℚ)/2))) = truncZ (32767 * ((1:ℚ)/2)) := by
  have happ := C6_save_quantization pyFmtQ
    (⟨1, 1, [0], [1/2], []⟩ : Sound ℚ) "a.wav" none
  have hsave : Sound.save pyFmtQ (⟨1, 1, [0], [1/2], []⟩ : Sound ℚ)
      "a.wav" none =
      some { wavName := "a.wav",
             wavData := [wrap16 (truncZ ((32767 : ℚ) * (1/2)))],
             infoName := pyReplaceWavTxt "a.wav", infoLines := [] } := by
    rw [Sound.save, if_neg (by decide)]
    rfl
  exact ⟨(happ.1 _ hsave).1, happ.2.2 (1/2) (by rw [abs_le]; norm_num)⟩

/-- C6 counterexample: the sample `1/2` is encoded as
`trunc(16383.5) = 16383`, whereas `round(0.5 * 32767) = 16384` as the
original claim states; the two disagree. -/
theorem C6_cex_truncation_not_round :
    (Sound.save pyFmtQ (⟨1, 1, [0], [1/2], []⟩ : Sound ℚ) "a.wav" none).map
        SaveResult.wavData = some [(16383 : ℤ)] ∧
    round ((32767 : ℚ) * (1/2)) = 16384 ∧
    some [(16383 : ℤ)] ≠ some [(16384 : ℤ)] := by
  have htr : truncZ ((32767 : ℚ) * (1/2)) = 16383 := by
    rw [truncZ, if_pos (by norm_num)]
    rw [Int.floor_eq_iff]
    constructor
    · norm_num
    · norm_num
  have hwr : wrap16 (16383 : ℤ) = 16383 := by
    rw [wrap16]
    norm_num
  refine ⟨?_, ?_, by simp⟩
  · rw [Sound.save, if_neg (by decide)]
    simp only [Option.map_some]
    rw [List.map_cons, List.map_nil, htr, hwr]
    rfl
  · rw [round_eq]
    rw [Int.floor_eq_iff]
    constructor
    · norm_num
    · norm_num

section RiseFallHelpers

variable {α : Type} [LinearOrderedField α] [FloorRing α]

lemma getD_mapIdx (l : List α) (f : ℕ → α → α) (i : ℕ) (h : i < l.length) :
    (l.mapIdx f).getD i 0 = f i (l.getD i 0) := by
  have h' : i < (l.mapIdx f).length := by
    simpa [List.length_mapIdx] using h
  rw [List.getD_eq_getElem _ _ h', List.getD_eq_getElem _ _ h,
    List.getElem_mapIdx]

lemma Sound.apply_rise_fall_ok (s : Sound α) (rT fT : α)
    (hR : 0 ≤ pyRound (s.srate * rT)) (hF : 1 ≤ pyRound (s.srate * fT))
    (hsum : (pyRound (s.srate * rT)).toNat + (pyRound (s.srate * fT)).toNat
      ≤ s.wave.length) :
    Sound.apply_rise_fall s rT fT = .ok { s with
      wave := List.mapIdx
        (fun i w =>
          if s.wave.length - (pyRound (s.srate * fT)).toNat ≤ i then
            w * (1 - ((i - (s.wave.length - (pyRound (s.srate * fT)).toNat) : ℕ) : α)
              / (((pyRound (s.srate * fT)).toNat : α) - 1)) else w)
        (s.wave.mapIdx (fun i w =>
          if i < (pyRound (s.srate * rT)).toNat then
            w * ((i : α) / (((pyRound (s.srate * rT)).toNat : α) - 1)) else w)) } := by
  have hz : (pyRound (s.srate * fT)).toNat ≠ 0 := by omega
  have hcond3 : (if (pyRound (s.srate * fT)).toNat = 0 then s.wave.length = 0
      else ((pyRound (s.srate * fT)).toNat ≤ s.wave.length ∨
        (pyRound (s.srate * fT)).toNat = 1)) := by
    rw [if_neg hz]
    left
    omega
  simp only [Sound.apply_rise_fall]
  rw [if_neg (show ¬(pyRound (s.srate * rT) < 0 ∨ pyRound (s.srate * fT) < 0)
      by omega),
    if_neg (not_not_intro (show (pyRound (s.srate * rT)).toNat ≤ s.wave.length ∨
      (pyRound (s.srate * rT)).toNat = 1 from Or.inl (by omega))),
    if_neg (not_not_intro hcond3)]

lemma Sound.apply_rise_fall_fall_zero (s : Sound α) (rT fT : α)
    (hL : 0 < s.wave.length) (hF0 : pyRound (s.srate * fT) = 0) :
    Sound.apply_rise_fall s rT fT = .error .valueError := by
  simp only [Sound.apply_rise_fall]
  split_ifs <;> first | rfl | (exfalso; omega)

end RiseFallHelpers

/-- C10: on a non-empty buffer, `applyRiseFall` returns normally (with
the buffer length unchanged) only when `round(sampleRate * fallTime) ≥ 1`;
when the fall count rounds to zero, the slice `wave[-0:]` is the whole
buffer and the in-place multiply by the length-zero fall ramp fails, so
the call raises instead of being a no-op on the fall side. -/
theorem C10_fall_count_zero_errors {α : Type} [LinearOrderedField α]
    [FloorRing α] (s : Sound α) (rT fT : α) (hL : 0 < s.wave.length) :
    (∀ s', Sound.apply_rise_fall s rT fT = .ok s' →
      1 ≤ pyRound (s.srate * fT) ∧ s'.wave.length = s.wave.length) ∧
    (pyRound (s.srate * fT) = 0 →
      Sound.apply_rise_fall s rT fT = .error .valueError) := by
  constructor
  · intro s' h
    refine ⟨?_, (Sound.apply_rise_fall_eq_ok h).2.2.2.2⟩
    by_contra hlt
    push_neg at hlt
    by_cases hneg : pyRound (s.srate * fT) < 0
    · simp only [Sound.apply_rise_fall] at h
      rw [if_pos (Or.inr hneg)] at h
      exact Except.noConfusion h
    · have hF0 : pyRound (s.srate * fT) = 0 := by omega
      rw [Sound.apply_rise_fall_fall_zero s rT fT hL hF0] at h
      exact Except.noConfusion h
  · exact Sound.apply_rise_fall_fall_zero s rT fT hL

/-- Witness for C10: on the one-sample buffer `[0]` with
`fallTime = 0` (so the fall count rounds to 0) the call errors. -/
theorem C10_fall_count_zero_errors_witness :
    Sound.apply_rise_fall (⟨1, 1, [0], [0], []⟩ : Sound ℚ) 0 0 =
      .error .valueError := by
  have hpr : pyRound ((1 : ℚ) * 0) = 0 := by
    rw [pyRound]
    norm_num
  exact (C10_fall_count_zero_errors (⟨1, 1, [0], [0], []⟩ : Sound ℚ) 0 0
    (by norm_num)).2 hpr

/-- C7 (amended): with `nRise = round(sampleRate*riseTime) ≥ 0`,
`nFall = round(sampleRate*fallTime)` and `nRise + nFall ≤ len`, a
successful `applyRiseFall` requires `nFall ≥ 1` (the `nFall = 0` slice
`wave[-0:]` is the whole buffer and errors, see C10); it then leaves
indices `[nRise, len-nFall)` unchanged, multiplies the first `nRise`
samples by the ramp `i/(nRise-1)` (so index 0 becomes 0 whenever
`nRise ≥ 1`), multiplies the last `nFall` samples by the ramp
`1 - j/(nFall-1)`, zeroing the last index whenever `nFall ≥ 2` — but for
`nFall = 1` the single ramp value is `linspace(1,0,1) = [1]`, so the
last sample is left unchanged, not zeroed — and leaves `componentLog`,
`duration`, `sampleRate` and `timeVector` unchanged. -/
theorem C7_apply_rise_fall {α : Type} [LinearOrderedField α] [FloorRing α]
    (s : Sound α) (rT fT : α)
    (hR : 0 ≤ pyRound (s.srate * rT)) (hF : 1 ≤ pyRound (s.srate * fT))
    (hsum : (pyRound (s.srate * rT)).toNat + (pyRound (s.srate * fT)).toNat
      ≤ s.wave.length) :
    ∃ s', Sound.apply_rise_fall s rT fT = .ok s' ∧
      s'.duration = s.duration ∧ s'.srate = s.srate ∧ s'.tvec = s.tvec ∧
      s'.components = s.components ∧ s'.wave.length = s.wave.length ∧
      (∀ i : ℕ, (pyRound (s.srate * rT)).toNat ≤ i →
        i < s.wave.length - (pyRound (s.srate * fT)).toNat →
        s'.wave.getD i 0 = s.wave.getD i 0) ∧
      (∀ i : ℕ, i < (pyRound (s.srate * rT)).toNat →
        s'.wave.getD i 0 = s.wave.getD i 0 *
          ((i : α) / (((pyRound (s.srate * rT)).toNat : α) - 1))) ∧
      (1 ≤ (pyRound (s.srate * rT)).toNat → s'.wave.getD 0 0 = 0) ∧
      (∀ i : ℕ, s.wave.length - (pyRound (s.srate * fT)).toNat ≤ i →
        i < s.wave.length →
        s'.wave.getD i 0 = s.wave.getD i 0 *
          (1 - ((i - (s.wave.length - (pyRound (s.srate * fT)).toNat) : ℕ) : α)
            / (((pyRound (s.srate * fT)).toNat : α) - 1))) ∧
      (2 ≤ (pyRound (s.srate * fT)).toNat →
        s'.wave.getD (s.wave.length - 1) 0 = 0) ∧
      ((pyRound (s.srate * fT)).toNat = 1 →
        s'.wave.getD (s.wave.length - 1) 0 =
          s.wave.getD (s.wave.length - 1) 0) := by
  have hok := Sound.apply_rise_fall_ok s rT fT hR hF hsum
  set a := (pyRound (s.srate * rT)).toNat with ha
  set b := (pyRound (s.srate * fT)).toNat with hb
  set L := s.wave.length with hL
  have hb1 : 1 ≤ b := by omega
  have hw1len : (s.wave.mapIdx (fun i w =>
      if i < a then w * ((i : α) / ((a : α) - 1)) else w)).length = L := by
    simp [List.length_mapIdx]
  have hget : ∀ i : ℕ, i < L →
      (List.mapIdx
        (fun i w => if L - b ≤ i then
          w * (1 - ((i - (L - b) : ℕ) : α) / ((b : α) - 1)) else w)
        (s.wave.mapIdx (fun i w =>
          if i < a then w * ((i : α) / ((a : α) - 1)) else w))).getD i 0 =
      (fun v => if L - b ≤ i then
          v * (1 - ((i - (L - b) : ℕ) : α) / ((b : α) - 1)) else v)
        (if i < a then s.wave.getD i 0 * ((i : α) / ((a : α) - 1))
          else s.wave.getD i 0) := by
    intro i hi
    rw [getD_mapIdx _ _ i (by omega : i < (s.wave.mapIdx (fun i w =>
      if i < a then w * ((i : α) / ((a : α) - 1)) else w)).length)]
    rw [getD_mapIdx _ _ i hi]
  refine ⟨_, hok, rfl, rfl, rfl, rfl, by simp [List.length_mapIdx], ?_, ?_, ?_,
    ?_, ?_, ?_⟩
  · intro i h1 h2
    have hi : i < L := by omega
    show _ = s.wave.getD i 0
    rw [hget i hi]
    simp only
    rw [if_neg (by omega : ¬ L - b ≤ i), if_neg (by omega : ¬ i < a)]
  · intro i h1
    have hi : i < L := by omega
    show _ = s.wave.getD i 0 * ((i : α) / ((a : α) - 1))
    rw [hget i hi]
    simp only
    rw [if_neg (by omega : ¬ L - b ≤ i), if_pos h1]
  · intro h1
    have hi : (0 : ℕ) < L := by omega
    show _ = (0 : α)
    rw [hget 0 hi]
    simp only
    rw [if_neg (by omega : ¬ L - b ≤ 0), if_pos (by omega : 0 < a)]
    simp
  · intro i h1 h2
    show _ = s.wave.getD i 0 *
      (1 - ((i - (L - b) : ℕ) : α) / ((b : α) - 1))
    rw [hget i h2]
    simp only
    rw [if_pos h1, if_neg (by omega : ¬ i < a)]
  · intro h2b
    have hi : L - 1 < L := by omega
    show _ = (0 : α)
    rw [hget (L - 1) hi]
    simp only
    rw [if_pos (by omega : L - b ≤ L - 1), if_neg (by omega : ¬ L - 1 < a)]
    have he : L - 1 - (L - b) = b - 1 := by omega
    rw [he, Nat.cast_sub (by omega : 1 ≤ b), Nat.cast_one]
    have hbcast : (2 : α) ≤ (b : α) := by exact_mod_cast h2b
    rw [div_self (by intro hcon; nlinarith : ((b : α) - 1) ≠ 0)]
    simp
  · intro h1b
    have hi : L - 1 < L := by omega
    show _ = s.wave.getD (L - 1) 0
    rw [hget (L - 1) hi]
    simp only
    rw [if_pos (by omega : L - b ≤ L - 1), if_neg (by omega : ¬ L - 1 < a)]
    rw [h1b]
    simp

/-- Witness for C7: on the buffer `[1,1,1,1]` at `sampleRate = 1` with
`riseTime = fallTime = 2` (`nRise = nFall = 2`, `nRise + nFall = len`),
the call succeeds, preserves the length and the log, and zeroes index 0. -/
theorem C7_apply_rise_fall_witness :
    ∃ s', Sound.apply_rise_fall
        (⟨4, 1, [0, 1, 2, 3], [1, 1, 1, 1], []⟩ : Sound ℚ) 2 2 = .ok s' ∧
      s'.wave.length = 4 ∧ s'.components = [] ∧ s'.wave.getD 0 0 = 0 := by
  have hpr : pyRound ((1 : ℚ) * 2) = 2 := by
    rw [pyRound]
    norm_num
  obtain ⟨s', hok, _, _, _, hcomp, hlen, _, _, h0, _, _, _⟩ :=
    C7_apply_rise_fall (⟨4, 1, [0, 1, 2, 3], [1, 1, 1, 1], []⟩ : Sound ℚ) 2 2
      (show (0 : ℤ) ≤ pyRound ((1 : ℚ) * 2) by rw [hpr]; norm_num)
      (show (1 : ℤ) ≤ pyRound ((1 : ℚ) * 2) by rw [hpr]; norm_num)
      (show (pyRound ((1 : ℚ) * 2)).toNat + (pyRound ((1 : ℚ) * 2)).toNat ≤ 4
        by rw [hpr]; omega)
  exact ⟨s', hok, by rw [hlen]; rfl, by rw [hcomp],
    h0 (show 1 ≤ (pyRound ((1 : ℚ) * 2)).toNat by rw [hpr]; omega)⟩

/-- C7 counterexample: with `nRise = nFall = 1` on the buffer `[1, 1]`
(`nRise + nFall = 2 ≤ len = 2`), the fall ramp is `linspace(1,0,1) = [1]`,
so the last sample stays `1` instead of becoming `0` as the original
claim asserts. -/
theorem C7_cex_fall_one_not_zeroed :
    (Sound.apply_rise_fall (⟨2, 1, [0, 1], [1, 1], []⟩ : Sound ℚ) 1 1).toOption.map
        (fun s => s.wave.getD 1 0) = some 1 ∧ (1 : ℚ) ≠ 0 := by
  have hpr : pyRound ((1 : ℚ) * 1) = 1 := by
    rw [pyRound]
    norm_num
  have hok := Sound.apply_rise_fall_ok (⟨2, 1, [0, 1], [1, 1], []⟩ : Sound ℚ) 1 1
    (show (0 : ℤ) ≤ pyRound ((1 : ℚ) * 1) by rw [hpr]; norm_num)
    (show (1 : ℤ) ≤ pyRound ((1 : ℚ) * 1) by rw [hpr])
    (show (pyRound ((1 : ℚ) * 1)).toNat + (pyRound ((1 : ℚ) * 1)).toNat ≤ 2
      by rw [hpr]; omega)
  rw [hok]
  refine ⟨?_, by norm_num⟩
  have hr : (pyRound ((⟨2, 1, [0, 1], [1, 1], []⟩ : Sound ℚ).srate * 1)).toNat
      = 1 := by
    rw [show (⟨2, 1, [0, 1], [1, 1], []⟩ : Sound ℚ).srate = 1 from rfl, hpr]
    rfl
  rw [hr] at hok ⊢
  simp only [Except.toOption, Option.map_some]
  norm_num [List.mapIdx_cons, List.mapIdx_nil, List.getD]

section ReplaceHelpers

lemma replaceWavTxt_append_wav (l : List Char) :
    replaceWavTxt (l ++ ['.', 'w', 'a', 'v']) =
      replaceWavTxt l ++ ['.', 't', 'x', 't'] := by
  induction l using replaceWavTxt.induct with
  | case1 rest ih =>
      rw [List.cons_append, List.cons_append, List.cons_append,
        List.cons_append, replaceWavTxt.eq_1, replaceWavTxt.eq_1, ih]
      rfl
  | case2 c rest hside ih =>
      have hside' : ∀ r1 : List Char, c = '.' →
          rest ++ ['.', 'w', 'a', 'v'] = 'w' :: 'a' :: 'v' :: r1 → False := by
        intro r1 hc heq
        match rest, heq with
        | [], heq => simp at heq
        | [x], heq => simp at heq
        | [x, y], heq => simp at heq
        | x :: y :: z :: rest', heq =>
            rw [List.cons_append, List.cons_append, List.cons_append] at heq
            injection heq with h1 heq
            injection heq with h2 heq
            injection heq with h3 heq
            exact hside rest' hc (by rw [h1, h2, h3])
      rw [List.cons_append, replaceWavTxt.eq_2 c _ hside',
        replaceWavTxt.eq_2 c _ hside, ih]
      rfl
  | case3 => rfl

lemma replaceWavTxt_id_of_not_infix (l : List Char)
    (h : ¬ (['.', 'w', 'a', 'v'] <:+: l)) : replaceWavTxt l = l := by
  induction l using replaceWavTxt.induct with
  | case1 rest ih =>
      exact absurd ⟨[], rest, rfl⟩ h
  | case2 c rest hside ih =>
      rw [replaceWavTxt.eq_2 c rest hside,
        ih (fun hin => h (List.infix_cons hin))]
  | case3 => rfl

lemma pyReplaceWavTxt_extension (base : String)
    (h : ¬ (['.', 'w', 'a', 'v'] <:+: base.data)) :
    pyReplaceWavTxt (base ++ ".wav") = base ++ ".txt" := by
  apply String.ext
  show replaceWavTxt (base ++ ".wav").data = _
  rw [String.data_append, String.data_append]
  rw [show (".wav" : String).data = ['.', 'w', 'a', 'v'] from rfl]
  rw [replaceWavTxt_append_wav, replaceWavTxt_id_of_not_infix base.data h]

end ReplaceHelpers

/-- C9 (amended): saving to a filename whose last four characters are not
`".wav"` writes no files at all and signals the problem as an explicit
no-op (an early return after a printed message, not a raised error), the
extension check coming before anything is written; with a valid name it
writes exactly two files — the audio file under the given name and a
metadata file with one line per componentLog record, in record order —
where the default metadata name is the audio name with every occurrence
of `".wav"` replaced by `".txt"` (which is exactly extension replacement,
with matching base names, whenever `".wav"` does not also occur earlier
in the name). -/
theorem C9_save_files {α : Type} [LinearOrderedField α] [FloorRing α]
    (fmt : α → String) (s : Sound α) (wavefile : String)
    (infofile : Option String) :
    (strTail4 wavefile ≠ ".wav" → Sound.save fmt s wavefile infofile = none) ∧
    (strTail4 wavefile = ".wav" →
      ∃ r, Sound.save fmt s wavefile infofile = some r ∧
        r.wavName = wavefile ∧
        r.infoLines = s.components.map (componentRepr fmt) ∧
        r.infoLines.length = s.components.length ∧
        (infofile = none → r.infoName = pyReplaceWavTxt wavefile) ∧
        (∀ f, infofile = some f → r.infoName = f)) ∧
    (∀ base : String, ¬ (['.', 'w', 'a', 'v'] <:+: base.data) →
      pyReplaceWavTxt (base ++ ".wav") = base ++ ".txt") := by
  refine ⟨?_, ?_, fun base h => pyReplaceWavTxt_extension base h⟩
  · intro h
    rw [Sound.save.eq_def, if_pos h]
  · intro h
    rw [Sound.save.eq_def, if_neg (not_not_intro h)]
    refine ⟨_, rfl, rfl, rfl, by simp, ?_, ?_⟩
    · intro hni
      subst hni
      rfl
    · intro f hf
      subst hf
      rfl

/-- Witness for C9 at concrete inputs: `"a.txt"` is rejected with nothing
written, `"a.wav"` is accepted with both file names derived as described,
and the extension-replacement equation holds for the dot-free base `"a"`. -/
theorem C9_save_files_witness :
    Sound.save pyFmtQ (⟨1, 1, [0], [0], []⟩ : Sound ℚ) "a.txt" none = none ∧
    (∃ r, Sound.save pyFmtQ (⟨1, 1, [0], [0], []⟩ : Sound ℚ) "a.wav" none =
        some r ∧
      r.wavName = "a.wav" ∧
      r.infoLines = (⟨1, 1, [0], [0], []⟩ : Sound ℚ).components.map
        (componentRepr pyFmtQ) ∧
      r.infoLines.length =
        (⟨1, 1, [0], [0], []⟩ : Sound ℚ).components.length ∧
      ((none : Option String) = none → r.infoName = pyReplaceWavTxt "a.wav") ∧
      (∀ f, (none : Option String) = some f → r.infoName = f)) ∧
    pyReplaceWavTxt ("a" ++ ".wav") = "a" ++ ".txt" :=
  ⟨(C9_save_files pyFmtQ ⟨1, 1, [0], [0], []⟩ "a.txt" none).1 (by decide),
    (C9_save_files pyFmtQ ⟨1, 1, [0], [0], []⟩ "a.wav" none).2.1 (by decide),
    (C9_save_files pyFmtQ (⟨1, 1, [0], [0], []⟩ : Sound ℚ) "a" none).2.2
      "a" (by decide)⟩

/-- C9 counterexample: for the valid filename `"a.wav.wav"` the default
metadata name is `"a.txt.txt"` (Python `replace` substitutes every
occurrence), not `"a.wav.txt"` (the audio name with its extension
replaced), and the two base names differ. -/
theorem C9_cex_replace_all_occurrences :
    (Sound.save pyFmtQ (⟨1, 1, [0], [0], []⟩ : Sound ℚ) "a.wav.wav" none).map
        SaveResult.infoName = some "a.txt.txt" ∧
    "a.txt.txt" ≠ "a.wav.txt" := by
  constructor
  · rw [Sound.save, if_neg (by decide)]
    simp only [Option.map_some]
    congr 1
  · decide

section FilenameHelpers

variable {α : Type}

lemma dropWhile_underscore_eq_self (l : List Char) (h : l.head? ≠ some '_') :
    l.dropWhile (· = '_') = l := by
  cases l with
  | nil => rfl
  | cons c t =>
      rw [List.dropWhile_cons, if_neg]
      simp only [List.head?, ne_eq] at h
      simp only [decide_eq_true_eq]
      exact fun hc => h (by rw [hc])

lemma pyStrip_empty : pyStrip '_' "" = "" := rfl

lemma pyStrip_safe_append_underscore (p : String) (h : underscoreTrimSafe p) :
    pyStrip '_' (p ++ "_") = p := by
  obtain ⟨hne, hhead, hlast⟩ := h
  show String.mk _ = p
  rw [String.data_append]
  rw [show ("_" : String).data = ['_'] from rfl]
  rw [dropWhile_underscore_eq_self (p.data ++ ['_'])
    (by rw [List.head?_append]
        cases hd : p.data with
        | nil => exact absurd hd hne
        | cons c t =>
            have h2 : (c :: t).head? ≠ some '_' := hd ▸ hhead
            simpa [Option.or] using h2)]
  rw [List.reverse_append]
  rw [show (['_'] : List Char).reverse = ['_'] from rfl]
  rw [show (['_'] : List Char) ++ p.data.reverse = '_' :: p.data.reverse from rfl]
  rw [List.dropWhile_cons, if_pos (by simp)]
  rw [dropWhile_underscore_eq_self p.data.reverse hlast]
  rw [List.reverse_reverse]

lemma compString_safe (fmt : α → String) (c : Component α) :
    underscoreTrimSafe (compString fmt c) := by
  cases c with
  | tone f a =>
      refine ⟨?_, ?_, ?_⟩ <;>
        simp [compString, String.data_append, List.head?_append,
          List.reverse_append, Option.or]
  | noise a =>
      exact ⟨by simp [compString], by simp [compString],
        by simp [compString]⟩
  | chord mf fa nt a =>
      refine ⟨?_, ?_, ?_⟩ <;>
        simp [compString, String.data_append, List.head?_append,
          List.reverse_append, Option.or]

lemma specJoinUnderscore_safe :
    ∀ parts : List String, parts ≠ [] →
      (∀ p ∈ parts, underscoreTrimSafe p) →
      underscoreTrimSafe (specJoinUnderscore parts) := by
  intro parts
  induction parts using specJoinUnderscore.induct with
  | case1 => intro h; exact absurd rfl h
  | case2 p => intro _ hall; exact hall p (by simp)
  | case3 p ps hps ih =>
      intro _ hall
      have hp : underscoreTrimSafe p := hall p (by simp)
      have hj : underscoreTrimSafe (specJoinUnderscore ps) :=
        ih (fun he => hps he) (fun q hq => hall q (List.mem_cons_of_mem _ hq))
      rw [specJoinUnderscore.eq_3 p ps hps]
      obtain ⟨hne1, hh1, hl1⟩ := hp
      obtain ⟨hne2, hh2, hl2⟩ := hj
      refine ⟨?_, ?_, ?_⟩
      · simp [String.data_append]
      · rw [show p ++ "_" ++ specJoinUnderscore ps
            = p ++ ("_" ++ specJoinUnderscore ps) from String.append_assoc p _ _]
        rw [String.data_append, List.head?_append]
        cases hd : p.data with
        | nil => exact absurd hd hne1
        | cons c t =>
            have h2 : (c :: t).head? ≠ some '_' := hd ▸ hh1
            simpa [Option.or] using h2
      · rw [String.data_append, List.reverse_append, List.head?_append]
        cases hd : (specJoinUnderscore ps).data.reverse with
        | nil => exact absurd (by simpa using hd) hne2
        | cons c t =>
            have h2 : (c :: t).head? ≠ some '_' := hd ▸ hl2
            simpa [Option.or] using h2

lemma suggest_foldl_eq (fmt : α → String) :
    ∀ (cs : List (Component α)), cs ≠ [] → ∀ (init : String),
      cs.foldl (fun acc c => acc ++ (compString fmt c ++ "_")) init =
        init ++ (specJoinUnderscore (cs.map (compString fmt)) ++ "_") := by
  intro cs
  induction cs with
  | nil => intro h; exact absurd rfl h
  | cons c cs' ih =>
      intro _ init
      rw [List.foldl_cons]
      by_cases hcs : cs' = []
      · subst hcs
        show init ++ (compString fmt c ++ "_") = _
        rw [List.map_cons, List.map_nil, specJoinUnderscore.eq_2]
      · rw [ih hcs _]
        rw [List.map_cons, specJoinUnderscore.eq_3 _ _
          (fun hmap => hcs (List.map_eq_nil.mp hmap))]
        simp [String.append_assoc]

end FilenameHelpers

/-- C8: `suggestFilename` produces, per componentLog record in call
order, the record's type tag plus (Tone) its frequency or (Chord) its
mid-frequency followed by `"Hz"`, joined by underscores with the trailing
underscore stripped, then appends `suffix` and `".wav"`; an empty
componentLog yields `suffix ++ ".wav"`, and a Tone(500) followed by a
Noise yields the `"tone500Hz_noise"` stem. -/
theorem C8_suggest_filename {α : Type} (fmt : α → String) (s : Sound α)
    (suffix : String) :
    (Sound.suggest_filename fmt s suffix =
      specJoinUnderscore (s.components.map (compString fmt)) ++ suffix
        ++ ".wav") ∧
    (s.components = [] →
      Sound.suggest_filename fmt s suffix = suffix ++ ".wav") ∧
    (∀ f a b : α, s.components = [.tone f a, .noise b] →
      Sound.suggest_filename fmt s suffix =
        "tone" ++ fmt f ++ "Hz" ++ "_" ++ "noise" ++ suffix ++ ".wav") := by
  have hmain : Sound.suggest_filename fmt s suffix =
      specJoinUnderscore (s.components.map (compString fmt)) ++ suffix
        ++ ".wav" := by
    show pyStrip '_' _ ++ suffix ++ ".wav" = _
    cases hcs : s.components with
    | nil => rfl
    | cons c cs' =>
        rw [suggest_foldl_eq fmt (c :: cs') (List.cons_ne_nil c cs') ""]
        rw [show ("" : String) ++ (specJoinUnderscore
          ((c :: cs').map (compString fmt)) ++ "_") = specJoinUnderscore
            ((c :: cs').map (compString fmt)) ++ "_" by simp]
        rw [pyStrip_safe_append_underscore _
          (specJoinUnderscore_safe _ (by simp) ?_)]
        intro p hp
        obtain ⟨cc, _, hcc⟩ := List.mem_map.mp hp
        exact hcc ▸ compString_safe fmt cc
  refine ⟨hmain, ?_, ?_⟩
  · intro h
    rw [hmain, h]
    rfl
  · intro f a b h
    rw [hmain, h]
    rw [List.map_cons, List.map_cons, List.map_nil]
    rw [specJoinUnderscore.eq_3 _ _ (by simp), specJoinUnderscore.eq_2]
    show ("tone" ++ fmt f ++ "Hz") ++ "_" ++ "noise" ++ suffix ++ ".wav" = _
    simp [String.append_assoc]

/-- Witness for C8: a Composer built by `addTone(500, 0.1)` then
`addNoise(0.02·)` suggests exactly `"tone500Hz_noise.wav"`, and the
empty-log clause applied to a fresh state yields `suffix ++ ".wav"`. -/
theorem C8_suggest_filename_witness :
    Sound.suggest_filename pyFmtQ
      (Sound.add_noise (fun _ => 1)
        (Sound.add_tone qIdCtx ⟨1, 1, [0], [0], []⟩ 500 (1/10)) (1/50)) "" =
      "tone500Hz_noise.wav" ∧
    Sound.suggest_filename pyFmtQ (⟨1, 1, [0], [0], []⟩ : Sound ℚ) "x" =
      "x" ++ ".wav" := by
  constructor
  · have h := (C8_suggest_filename pyFmtQ
      (Sound.add_noise (fun _ => 1)
        (Sound.add_tone qIdCtx ⟨1, 1, [0], [0], []⟩ 500 (1/10)) (1/50)) "").2.2
      500 (1/10) (1/50) rfl
    rw [h]
    decide
  · exact (C8_suggest_filename pyFmtQ
      (⟨1, 1, [0], [0], []⟩ : Sound ℚ) "x").2.1 rfl

section LogspaceHelpers

lemma getD_logspace10 {α : Type} [Field α] (e : α → α) (a b : α) (n k : ℕ)
    (hk : k < n) :
    (logspace10 e a b n).getD k 0 =
      e (a + (k : α) * ((b - a) / ((n : α) - 1))) := by
  have h1 : k < (logspace10 e a b n).length := by
    simp [logspace10, linspace]
    omega
  rw [List.getD_eq_getElem _ _ h1]
  simp only [logspace10, linspace, List.getElem_map, List.getElem_range]

end LogspaceHelpers

/-- C5: for `toneCount ≥ 1`, `midFrequency > 0`, `factor > 0`, `addChord`
(at the real interpretation `sin = Real.sin`, `π = Real.pi`,
`log10 = logb 10`, `10^· = rpow`) uses the geometric frequency progression
`f_k = (midFrequency/factor) * (factor²)^(k/(toneCount-1))` for
`k = 0..toneCount-1` (the single value `midFrequency/factor` when
`toneCount = 1`, via the `0/0 = 0` exponent; all frequencies equal to
`midFrequency` when `factor = 1`), adds the sum of all `toneCount` sine
components, each scaled by the shared amplitude, to the buffer, and
appends exactly one Chord record for the whole call. -/
theorem C5_add_chord_geometric (phase : ℕ → ℝ) (s : Sound ℝ)
    (mf fa : ℝ) (nt : ℤ) (amp : ℝ)
    (hmf : 0 < mf) (hfa : 0 < fa) (hnt : 1 ≤ nt) (hinv : s.lengthInvariant) :
    ∃ s', Sound.add_chord
        ⟨Real.sin, Real.pi, fun x => Real.logb 10 x, fun x => (10:ℝ) ^ x⟩
        phase s mf fa nt amp = .ok s' ∧
      s'.components = s.components ++ [.chord mf fa nt amp] ∧
      s'.wave.length = s.wave.length ∧ s'.tvec = s.tvec ∧
      (∀ k : ℕ, k < nt.toNat →
        (logspace10 (fun x : ℝ => (10:ℝ) ^ x) (Real.logb 10 (mf / fa))
            (Real.logb 10 (mf * fa)) nt.toNat).getD k 0 =
          (mf / fa) * (fa ^ 2) ^ ((k : ℝ) / ((nt : ℝ) - 1))) ∧
      (fa = 1 → ∀ k : ℕ, k < nt.toNat →
        (logspace10 (fun x : ℝ => (10:ℝ) ^ x) (Real.logb 10 (mf / fa))
            (Real.logb 10 (mf * fa)) nt.toNat).getD k 0 = mf) ∧
      (∀ i : ℕ, i < s.wave.length →
        s'.wave.getD i 0 = s.wave.getD i 0 +
          ((List.range nt.toNat).map (fun k =>
            amp * Real.sin (2 * Real.pi *
              ((logspace10 (fun x : ℝ => (10:ℝ) ^ x) (Real.logb 10 (mf / fa))
                (Real.logb 10 (mf * fa)) nt.toNat).getD k 0) *
              s.tvec.getD i 0 + phase k))).sum) := by
  obtain ⟨s', hok, _, _, htv, hcomp, hlen, hwave⟩ :=
    Sound.add_chord_ok_spec
      ⟨Real.sin, Real.pi, fun x => Real.logb 10 x, fun x => (10:ℝ) ^ x⟩
      phase s mf fa nt amp (ne_of_gt hfa) (by omega) hinv
  have h10 : (0:ℝ) < 10 := by norm_num
  have hmf0 : mf ≠ 0 := ne_of_gt hmf
  have hfa0 : fa ≠ 0 := ne_of_gt hfa
  have hdiv : 0 < mf / fa := div_pos hmf hfa
  have hsq : (0:ℝ) < fa ^ 2 := by positivity
  have hfreq : ∀ k : ℕ, k < nt.toNat →
      (logspace10 (fun x : ℝ => (10:ℝ) ^ x) (Real.logb 10 (mf / fa))
          (Real.logb 10 (mf * fa)) nt.toNat).getD k 0 =
        (mf / fa) * (fa ^ 2) ^ ((k : ℝ) / ((nt : ℝ) - 1)) := by
    intro k hk
    rw [getD_logspace10 _ _ _ _ k hk]
    have hb : Real.logb 10 (mf*fa) - Real.logb 10 (mf/fa)
        = Real.logb 10 (fa^2) := by
      rw [← Real.logb_div (mul_ne_zero hmf0 hfa0) (div_ne_zero hmf0 hfa0)]
      congr 1
      field_simp
      ring
    have hn : ((nt.toNat : ℕ) : ℝ) = (nt : ℝ) := by
      have h := Int.toNat_of_nonneg (by omega : (0:ℤ) ≤ nt)
      exact_mod_cast congrArg (fun z : ℤ => (z : ℝ)) h
    show (10:ℝ) ^ (Real.logb 10 (mf/fa) + (k:ℝ) *
      ((Real.logb 10 (mf*fa) - Real.logb 10 (mf/fa)) / ((nt.toNat : ℝ) - 1))) = _
    rw [hb, hn]
    have hexp : Real.logb 10 (mf/fa) + (k:ℝ) *
        (Real.logb 10 (fa^2) / ((nt:ℝ)-1)) =
        Real.logb 10 (mf/fa) + Real.logb 10 (fa^2) * ((k:ℝ)/((nt:ℝ)-1)) := by
      ring
    rw [hexp, Real.rpow_add h10, Real.rpow_mul h10.le,
      Real.rpow_logb h10 (by norm_num) hdiv, Real.rpow_logb h10 (by norm_num) hsq]
  refine ⟨s', hok, hcomp, hlen, htv, hfreq, ?_, fun i hi => hwave i hi⟩
  intro h1 k hk
  rw [hfreq k hk, h1]
  simp [Real.one_rpow]

/-- Witness for C5 at a concrete input: `addChord(midFrequency = 1,
factor = 1, toneCount = 1)` on a one-sample state succeeds and appends
exactly one Chord record. -/
theorem C5_add_chord_geometric_witness :
    ∃ s', Sound.add_chord
        ⟨Real.sin, Real.pi, fun x => Real.logb 10 x, fun x => (10:ℝ) ^ x⟩
        (fun _ => 0) (⟨1, 1, [0], [0], []⟩ : Sound ℝ) 1 1 1 1 = .ok s' ∧
      s'.components = (⟨1, 1, [0], [0], []⟩ : Sound ℝ).components ++
        [.chord 1 1 1 1] := by
  obtain ⟨s', hok, hcomp, _⟩ :=
    C5_add_chord_geometric (fun _ => 0) (⟨1, 1, [0], [0], []⟩ : Sound ℝ)
      1 1 1 1 (by norm_num) (by norm_num) (by norm_num) rfl
  exact ⟨s', hok, hcomp⟩
